import Mathlib

/-!
Verification of the file discovery and filtering engine of grepforllm.

The development is a shallow embedding of `internal`'s `ListFiles`,
`applyFilters` and `shouldIncludeFileByFilters` (the iteration that walks the
tree once, classifies text files, consults the gitignore matcher during the
walk, and filters candidates with default excludes plus user include/exclude
patterns).

External collaborators are abstracted exactly where the Go code calls out of
the repository:
- `path/filepath.Match` (the glob matcher) becomes a parameter
  `glob : GlobMatcher`; `glob pat name = none` models `Match` returning
  `ErrBadPattern` (in which case `Match`'s boolean result is `false`),
  `some b` models a successful call returning `b`.
- the `denormal/go-gitignore` matcher becomes `IgnoreMatcher`,
  an `Option (String → Bool)`; `none` models a `nil` matcher.
- `net/http.DetectContentType` applied to the first at most 512 bytes of a
  file is abstracted by storing the resulting MIME string in the file node
  (`FileClass.content mime`).

Strings are modelled by Lean `String`; the Go `strings` and `path/filepath`
helpers the code uses are re-implemented below over the character list
(`String.data`) so that every definition is executable by the kernel.
`filepath.ToSlash` is the identity on slash-separated paths (the walk runs on
a Unix separator), so calls to it are omitted.
-/

namespace Grepforllm

/-- Models Go `unicode.IsSpace` (the character classes trimmed by
`strings.TrimSpace`). -/
def isGoSpace (c : Char) : Bool :=
  let n := c.toNat
  n == 9 || n == 10 || n == 11 || n == 12 || n == 13 || n == 32 ||
  n == 0x85 || n == 0xA0 || n == 0x1680 ||
  (decide (0x2000 ≤ n) && decide (n ≤ 0x200A)) ||
  n == 0x2028 || n == 0x2029 || n == 0x202F || n == 0x205F || n == 0x3000

/-- Models Go `strings.TrimSpace`. -/
def goTrim (s : String) : String :=
  ⟨((s.data.dropWhile isGoSpace).reverse.dropWhile isGoSpace).reverse⟩

/-- Helper for `goSplit`: splits the remaining characters at every occurrence
of `sep`, `acc` being the (reversed) characters of the current field. -/
def splitCharsAux (sep : Char) : List Char → List Char → List String
  | [], acc => [⟨acc.reverse⟩]
  | c :: cs, acc =>
    if c == sep then ⟨acc.reverse⟩ :: splitCharsAux sep cs []
    else splitCharsAux sep cs (c :: acc)

/-- Models Go `strings.Split` with a one-character separator
(`strings.Split("", sep) = [""]`, fields may be empty). -/
def goSplit (s : String) (sep : Char) : List String :=
  splitCharsAux sep s.data []

/-- Models Go `strings.HasPrefix`. -/
def goStartsWith (s pre : String) : Bool :=
  List.isPrefixOf pre.data s.data

/-- Models Go `strings.HasSuffix`. -/
def goHasSuffix (s suf : String) : Bool :=
  List.isPrefixOf suf.data.reverse s.data.reverse

/-- Joins path segments with `"/"` (Go `strings.Join(segs, "/")`). -/
def joinSlash : List String → String
  | [] => ""
  | [s] => s
  | s :: rest => s ++ "/" ++ joinSlash rest

/-- Models `path/filepath.Base` on the path shapes the walk produces:
nonempty slash-separated relative paths with no leading, trailing or duplicate
slashes. On those, `Base` is the last slash-separated component (and `"."` on
the empty string). -/
def goBase (p : String) : String :=
  match (goSplit p '/').getLast? with
  | some s => if s == "" then "." else s
  | none => "."

/-- Models `path/filepath.Dir` on the same path shapes: everything before the
last slash (with `Clean` applied, which on these shapes only removes the
trailing slash), or `"."` when the path has no slash. -/
def goDir (p : String) : String :=
  match (goSplit p '/').dropLast with
  | [] => "."
  | segs => joinSlash segs

/-- Byte-lexicographic comparison of character lists, the order Go's
`sort.Strings` sorts by (UTF-8 byte order coincides with code-point order). -/
def charListLe : List Char → List Char → Bool
  | [], _ => true
  | _ :: _, [] => false
  | a :: as, b :: bs =>
    if a.toNat < b.toNat then true
    else if b.toNat < a.toNat then false
    else charListLe as bs

/-- Lexicographic string order used by `sort.Strings`. -/
def strLe (a b : String) : Bool := charListLe a.data b.data

/-- Models Go `sort.Strings`. Equal strings are indistinguishable, so every
comparison sort produces the same output list; insertion sort is used because
it is structurally recursive. -/
def sortStrings (l : List String) : List String :=
  List.insertionSort (fun a b => strLe a b = true) l

/-- The glob matcher abstracting `path/filepath.Match pattern name`:
`none` models `ErrBadPattern` (with `Match`'s boolean result `false`),
`some b` a successful match result `b`. -/
abbrev GlobMatcher := String → String → Option Bool

/-- The gitignore matcher abstracting `denormal/go-gitignore`:
`none` models `app.gitignoreMatcher == nil`. -/
abbrev IgnoreMatcher := Option (String → Bool)

/-- Models the code's use of `filepath.Match`:
`if matched, _ := filepath.Match(pattern, name); matched { ... }` discards the
error, and on `ErrBadPattern` the returned `matched` is `false`. -/
def matchOrFalse (glob : GlobMatcher) (pat name : String) : Bool :=
  match glob pat name with
  | some b => b
  | none => false

/-- Models `app.gitignoreMatcher != nil && app.gitignoreMatcher.Ignore(p)`. -/
def ignoresF (ign : IgnoreMatcher) (p : String) : Bool :=
  match ign with
  | none => false
  | some f => f p

/-- The compile-time constant `DefaultExcludes` of `internal/app.go`. -/
def DefaultExcludes : String := ".git/,node_modules/"

/-- The `FilterMode` enum (`ExcludeMode = iota`, the default). -/
inductive FilterMode
  | ExcludeMode
  | IncludeMode
deriving DecidableEq

/-- The `dirPath` preparation of `shouldIncludeFileByFilters` (lines 209-214):
`filepath.Dir`, then `""` for the root (`"."`), else a trailing slash. -/
def dirSlashOf (relPath : String) : String :=
  let d := goDir relPath
  if d == "." then "" else d ++ "/"

/-- One iteration of the user-pattern loops of `shouldIncludeFileByFilters`
(lines 256-281 for includes, 296-315 for excludes; both loop bodies are
identical): trim the pattern, skip it if empty (`continue` contributes
`false`), use the directory prefix test for patterns ending in `"/"` (with
the special case `pattern == "/"` matching files at the root), otherwise glob
against the base name and then the full relative path. -/
def userPatternHit (glob : GlobMatcher) (relPath baseName dirPath pat0 : String) : Bool :=
  if goTrim pat0 == "" then false
  else if goHasSuffix (goTrim pat0) "/" then
    goStartsWith dirPath (goTrim pat0) || (goTrim pat0 == "/" && dirPath == "")
  else
    matchOrFalse glob (goTrim pat0) baseName || matchOrFalse glob (goTrim pat0) relPath

/-- A whole user-pattern loop: split the comma-separated string and stop at
the first hit (`break` / early `return false`). -/
def userPatternSetHits (glob : GlobMatcher) (patterns relPath baseName dirPath : String) : Bool :=
  (goSplit patterns ',').any (userPatternHit glob relPath baseName dirPath)

/-- The default-excludes check of `shouldIncludeFileByFilters`
(lines 218-245). Directory patterns use the prefix test on `dirPath` (no
`"/"` special case here); file patterns glob against base name then full
path. -/
def isDefaultExcluded (glob : GlobMatcher) (relPath baseName dirPath : String) : Bool :=
  (goSplit DefaultExcludes ',').any fun pat0 =>
    if goTrim pat0 == "" then false
    else if goHasSuffix (goTrim pat0) "/" then goStartsWith dirPath (goTrim pat0)
    else matchOrFalse glob (goTrim pat0) baseName || matchOrFalse glob (goTrim pat0) relPath

/-- `shouldIncludeFileByFilters` (part_000 lines 204-320): the per-path filter
decision from filter mode, include/exclude pattern strings, and the default
excludes. Gitignore filtering is not consulted here; it happened during the
walk. -/
def shouldIncludeFileByFilters (glob : GlobMatcher) (relPath : String)
    (filterMode : FilterMode) (includes excludes : String) : Bool :=
  let baseName := goBase relPath
  let dirPath := dirSlashOf relPath
  let isDefExcl := isDefaultExcluded glob relPath baseName dirPath
  match filterMode with
  | .IncludeMode =>
    if includes == "" then !isDefExcl
    else
      let included := userPatternSetHits glob includes relPath baseName dirPath
      included && !isDefExcl
  | .ExcludeMode =>
    if isDefExcl then false
    else !userPatternSetHits glob excludes relPath baseName dirPath

/-- The mutable state of `App` that the discovery/filter core reads and
writes. `selectedFiles` is the `map[string]bool` read through its default
(`false` for absent keys). UI fields, the mutex and the loading flags are
external to the core. -/
structure AppState where
  allFiles : List String
  fileList : List String
  selectedFiles : String → Bool
  filterMode : FilterMode
  includes : String
  excludes : String
  currentLine : Nat

/-- `applyFilters` (part_000 lines 154-198): filters `allFiles` into
`fileList`, rebuilds the selection map keeping only still-visible files, and
clamps the cursor. The loop appending each passing file and copying its
selection bit is rendered as `List.filter` plus the pointwise selection
predicate. UI refresh and unlocking are external effects. -/
def applyFilters (glob : GlobMatcher) (app : AppState) : AppState :=
  let filteredList := app.allFiles.filter fun file =>
    shouldIncludeFileByFilters glob file app.filterMode app.includes app.excludes
  { app with
    fileList := filteredList
    selectedFiles := fun file => filteredList.contains file && app.selectedFiles file
    currentLine :=
      if app.currentLine ≥ filteredList.length then Nat.max 0 (filteredList.length - 1)
      else app.currentLine }

/-- Walk errors surfaced by the OS: `filepath.WalkDir` reports them to the
callback, which distinguishes permission errors (`os.IsPermission`) from
everything else. -/
inductive IOErr
  | permission
  | other
deriving DecidableEq

/-- Outcome of opening, reading and MIME-sniffing a file during the walk:
`openFail` models `os.Open` failing, `readFail` a non-EOF `Read` error, and
`content mime` stores the `http.DetectContentType` result for the first at
most 512 bytes. -/
inductive FileClass
  | openFail
  | readFail
  | content (mime : String)
deriving DecidableEq

mutual
/-- A filesystem entry as seen by `filepath.WalkDir`: a regular file with its
classification, or a directory with an optional `os.ReadDir` failure and its
children. -/
inductive FSTree
  | file (name : String) (cls : FileClass)
  | dir (name : String) (readFail : Option IOErr) (children : FSForest)
/-- A list of sibling entries, in `ReadDir` order. -/
inductive FSForest
  | leaf
  | cons (t : FSTree) (ts : FSForest)
end

/-- A `fs.WalkDirFunc` return value as `walkDir` sees it: `nil`,
`filepath.SkipDir`, or a real error. -/
inductive Ctl
  | nil
  | skipDir
  | fail (e : IOErr)
deriving DecidableEq

/-- The `err != nil` branch of the `ListFiles` callback (part_000 lines
24-33): permission errors return `filepath.SkipDir`, everything else returns
`nil` (skip the entry, continue). -/
def cbOnErr : IOErr → Ctl
  | .permission => .skipDir
  | .other => .nil

/-- `filepath.Rel(rootDir, path)` followed by `filepath.ToSlash` for a child
named `name` under the relative directory `pre` (`""` for the root). -/
def childRel (pre name : String) : String :=
  if pre == "" then name else pre ++ "/" ++ name

/-- The walk's directory-level default-excludes check (part_000 lines 62-72):
only nonempty patterns ending in `"/"` are considered, matched as a prefix of
the directory's relative path plus `"/"`. -/
def defaultExcludeDirSkip (dirPathWithSlash : String) : Bool :=
  (goSplit DefaultExcludes ',').any fun pat0 =>
    let pat := goTrim pat0
    if pat == "" || !goHasSuffix pat "/" then false
    else goStartsWith dirPathWithSlash pat

mutual
/-- One entry of the walk, following Go's `filepath.walkDir` with the
`ListFiles` callback (part_000 lines 23-134) inlined. Returns the relative
paths appended to `files` and the value `walkDir` returns upward
(`SkipDir` already normalized to `nil` for directories, as `walkDir` does).
For a file: skip `.gitignore`, skip gitignored paths, skip open/read
failures, keep only `text/*` MIME types. For a directory: the callback may
prune via gitignore, the default directory excludes, or the literal `.git`
name; a `ReadDir` failure is reported to the callback a second time
(permission ⇒ `SkipDir`, normalized to `nil`; otherwise `nil` and the loop
runs over the entries read before the failure, modelled as none). -/
def walkEntry (ign : IgnoreMatcher) (pre : String) : FSTree → List String × Ctl
  | .file name cls =>
    let relPath := childRel pre name
    if relPath == ".gitignore" then ([], .nil)
    else if ignoresF ign relPath then ([], .nil)
    else
      match cls with
      | .openFail => ([], .nil)
      | .readFail => ([], .nil)
      | .content mime => ((if goStartsWith mime "text/" then [relPath] else []), .nil)
  | .dir name readFail children =>
    let relPath := childRel pre name
    if ignoresF ign (relPath ++ "/") then ([], .nil)
    else if defaultExcludeDirSkip (relPath ++ "/") then ([], .nil)
    else if name == ".git" then ([], .nil)
    else
      match readFail with
      | some e =>
        match cbOnErr e with
        | .skipDir => ([], .nil)
        | .nil => ([], .nil)
        | .fail e2 => ([], .fail e2)
      | none => walkForest ign relPath children

/-- The loop of `walkDir` over a directory's entries: a child returning
`SkipDir` breaks the loop (result `nil`), a real error propagates, otherwise
the appended files accumulate. -/
def walkForest (ign : IgnoreMatcher) (pre : String) : FSForest → List String × Ctl
  | .leaf => ([], .nil)
  | .cons t ts =>
    match walkEntry ign pre t with
    | (fs, .nil) =>
      let r := walkForest ign pre ts
      (fs ++ r.1, r.2)
    | (fs, .skipDir) => (fs, .nil)
    | (fs, .fail e) => (fs, .fail e)
end

/-- The scanned root: `statFail` models `os.Lstat(root)` failing (in which
case `WalkDir` calls the callback once with that error), `tree` the root
entry. -/
structure RootFS where
  statFail : Option IOErr
  tree : FSTree

/-- `filepath.WalkDir(app.rootDir, callback)`: a root stat failure is passed
to the callback (whose result, `SkipDir` or `nil`, makes `WalkDir` return
`nil` either way); otherwise the callback first runs on the root itself
(hitting the `path == app.rootDir` early return), then the root directory is
read and its entries walked. A `SkipDir` at top level is normalized to
success by `WalkDir`. -/
def walkDirRoot (ign : IgnoreMatcher) (fs : RootFS) : List String × Ctl :=
  match fs.statFail with
  | some e =>
    match cbOnErr e with
    | .skipDir => ([], .nil)
    | .nil => ([], .nil)
    | .fail e2 => ([], .fail e2)
  | none =>
    match fs.tree with
    | .file _ _ => ([], .nil)
    | .dir _ readFail children =>
      match readFail with
      | some e =>
        match cbOnErr e with
        | .skipDir => ([], .nil)
        | .nil => ([], .nil)
        | .fail e2 => ([], .fail e2)
      | none => walkForest ign "" children

/-- `ListFiles` (part_000 lines 18-150): walk, on a walk error unlock and
return it to the caller; otherwise sort the discovered files, store them in
`allFiles`, and run `applyFilters`. The returned `Option IOErr` is the error
`ListFiles` reports (wrapped with `fmt.Errorf` in Go). -/
def ListFiles (glob : GlobMatcher) (ign : IgnoreMatcher) (fs : RootFS)
    (app : AppState) : Option IOErr × AppState :=
  match walkDirRoot ign fs with
  | (_, .fail e) => (some e, app)
  | (files, .nil) =>
    (none, applyFilters glob { app with allFiles := sortStrings files })
  | (files, .skipDir) =>
    (none, applyFilters glob { app with allFiles := sortStrings files })

mutual
/-- All regular files contained in an entry, with their walk-relative paths
and classifications (ignoring any pruning: the raw tree contents). -/
def filesIn (pre : String) : FSTree → List (String × FileClass)
  | .file name cls => [(childRel pre name, cls)]
  | .dir name _ children => forestFilesIn (childRel pre name) children
/-- All regular files contained in a forest of siblings. -/
def forestFilesIn (pre : String) : FSForest → List (String × FileClass)
  | .leaf => []
  | .cons t ts => filesIn pre t ++ forestFilesIn pre ts
end

/-- All regular files of the scanned root, with walk-relative paths. -/
def rootFilesIn (fs : RootFS) : List (String × FileClass) :=
  match fs.tree with
  | .file name cls => [(name, cls)]
  | .dir _ _ children => forestFilesIn "" children

/-- A path segment as the walk produces them: nonempty, not a dot entry. -/
def validSeg (s : String) : Bool :=
  !(s == "") && !(s == ".") && !(s == "..")

/-- The shape of every relative path the walk hands to the filter: nonempty
slash-separated segments, none empty, `"."` or `".."` (`filepath.Rel` output
in slash form, root itself excluded). -/
def validRelPath (p : String) : Bool :=
  (goSplit p '/').all validSeg

/-- Modelled from the spec: `dirOf(path)`, the containing directory with the
empty string for files directly at the root. -/
def specDirOf (p : String) : String :=
  if goDir p == "." then "" else goDir p

/-- Modelled from the spec: a PatternSet is the comma-split pattern string
with entries trimmed and empties discarded. -/
def parsedPatterns (patterns : String) : List String :=
  ((goSplit patterns ',').map goTrim).filter fun s => !(s == "")

/-- Modelled from the spec: how one (already trimmed, nonempty) PatternSet
member matches a path — directory patterns by the directory-prefix rule,
glob patterns against base name or full relative path. -/
def specPatMatches (glob : GlobMatcher) (relPath baseName dirPath pat : String) : Bool :=
  if goHasSuffix pat "/" then
    goStartsWith dirPath pat || (pat == "/" && dirPath == "")
  else
    matchOrFalse glob pat baseName || matchOrFalse glob pat relPath

/-- A path lies under a built-in (DefaultExcludes) directory pattern: some
trimmed default pattern ends in `"/"` and is a prefix of the path's
directory-with-slash. -/
def underBuiltinExcludeDir (relPath : String) : Bool :=
  (goSplit DefaultExcludes ',').any fun pat0 =>
    goHasSuffix (goTrim pat0) "/" && goStartsWith (dirSlashOf relPath) (goTrim pat0)

/-- Every nonempty trimmed entry of `patterns` is a non-directory pattern on
which the glob matcher reports a syntax error both against the base name of
`relPath` and against `relPath` itself. -/
def allPatternsBad (glob : GlobMatcher) (patterns relPath : String) : Prop :=
  ∀ pat0 ∈ goSplit patterns ',', (goTrim pat0 == "") = false →
    goHasSuffix (goTrim pat0) "/" = false
    ∧ glob (goTrim pat0) (goBase relPath) = none
    ∧ glob (goTrim pat0) relPath = none

/-! Helper lemmas: string order, splitting, path shapes. -/

theorem charListLe_total (as : List Char) : ∀ bs, charListLe as bs = true ∨ charListLe bs as = true := by
  induction as with
  | nil => intro bs; left; rfl
  | cons a as ih =>
    intro bs
    cases bs with
    | nil => right; rfl
    | cons b bs =>
      by_cases h1 : a.toNat < b.toNat
      · left; simp [charListLe, h1]
      · by_cases h2 : b.toNat < a.toNat
        · right; simp [charListLe, h1, h2]
        · rcases ih bs with h | h
          · left; simp [charListLe, h1, h2, h]
          · right; simp [charListLe, h1, h2, h]

theorem charListLe_trans (as : List Char) :
    ∀ bs cs, charListLe as bs = true → charListLe bs cs = true → charListLe as cs = true := by
  induction as with
  | nil => intro bs cs _ _; rfl
  | cons a as ih =>
    intro bs cs hab hbc
    cases bs with
    | nil => simp [charListLe] at hab
    | cons b bs =>
      cases cs with
      | nil => simp [charListLe] at hbc
      | cons c cs =>
        simp only [charListLe] at hab hbc ⊢
        by_cases h1 : a.toNat < b.toNat
        · by_cases h2 : b.toNat < c.toNat
          · simp [show a.toNat < c.toNat from by omega]
          · simp only [h2, if_false, if_neg] at hbc
            by_cases h3 : c.toNat < b.toNat
            · simp [h2, h3] at hbc
            · have : b.toNat = c.toNat := by omega
              simp [show a.toNat < c.toNat from by omega]
        · by_cases h4 : b.toNat < a.toNat
          · simp [h1, h4] at hab
          · have hab2 : a.toNat = b.toNat := by omega
            by_cases h2 : b.toNat < c.toNat
            · simp [show a.toNat < c.toNat from by omega]
            · by_cases h3 : c.toNat < b.toNat
              · simp [h2, h3] at hbc
              · have : b.toNat = c.toNat := by omega
                have hac1 : ¬ a.toNat < c.toNat := by omega
                have hac2 : ¬ c.toNat < a.toNat := by omega
                simp only [h1, h4, if_false, if_neg, ite_false] at hab
                simp only [h2, h3, if_false, if_neg, ite_false] at hbc
                simp only [hac1, hac2, if_false, if_neg, ite_false]
                exact ih bs cs (by simpa [h1, h4] using hab) (by simpa [h2, h3] using hbc)

instance : IsTrans String (fun a b => strLe a b = true) :=
  ⟨fun a b c => charListLe_trans a.data b.data c.data⟩

instance : IsTotal String (fun a b => strLe a b = true) :=
  ⟨fun a b => charListLe_total a.data b.data⟩

theorem splitCharsAux_ne_nil (sep : Char) (cs : List Char) :
    ∀ acc, splitCharsAux sep cs acc ≠ [] := by
  induction cs with
  | nil => intro acc; simp [splitCharsAux]
  | cons c cs ih =>
    intro acc
    simp only [splitCharsAux]
    split
    · simp
    · exact ih _

theorem goSplit_ne_nil (p : String) (sep : Char) : goSplit p sep ≠ [] :=
  splitCharsAux_ne_nil sep p.data []

theorem mem_splitCharsAux_no_sep (sep : Char) (cs : List Char) :
    ∀ acc, sep ∉ acc → ∀ s ∈ splitCharsAux sep cs acc, sep ∉ s.data := by
  induction cs with
  | nil =>
    intro acc hacc s hs
    simp only [splitCharsAux, List.mem_singleton] at hs
    subst hs
    simpa using hacc
  | cons c cs ih =>
    intro acc hacc s hs
    simp only [splitCharsAux] at hs
    by_cases hc : (c == sep) = true
    · rw [if_pos hc] at hs
      rcases List.mem_cons.mp hs with h | h
      · subst h; simpa using hacc
      · exact ih [] (by simp) s h
    · rw [if_neg hc] at hs
      refine ih (c :: acc) ?_ s hs
      intro hmem
      rcases List.mem_cons.mp hmem with h | h
      · exact hc (by simp [h])
      · exact hacc h

theorem mem_goSplit_no_sep (p : String) (sep : Char) :
    ∀ s ∈ goSplit p sep, sep ∉ s.data :=
  mem_splitCharsAux_no_sep sep p.data [] (by simp)

theorem strApp_data (a b : String) : (a ++ b).data = a.data ++ b.data := rfl

theorem joinSlash_cons_ne (s : String) (t : List String) (h : t ≠ []) :
    joinSlash (s :: t) = s ++ "/" ++ joinSlash t := by
  cases t with
  | nil => exact absurd rfl h
  | cons x xs => rfl

theorem strDataEq {a b : String} (h : a.data = b.data) : a = b := by
  cases a; cases b; simp_all

theorem goHasSuffix_ne_empty {pat : String} (h : goHasSuffix pat "/" = true) :
    (pat == "") = false := by
  rcases pat with ⟨l⟩
  cases l with
  | nil => exact absurd h (by decide)
  | cons c cs =>
    refine beq_eq_false_iff_ne.mpr fun he => ?_
    have := congrArg String.data he
    simp at this

theorem goStartsWith_empty_right {pat : String} (h : (pat == "") = false) :
    goStartsWith "" pat = false := by
  rcases pat with ⟨l⟩
  cases l with
  | nil => exact absurd h (by decide)
  | cons c cs => rfl

theorem goStartsWith_slash {pat : String} (h : (pat == "") = false) :
    goStartsWith "/" pat = (pat == "/") := by
  rcases pat with ⟨l⟩
  match l with
  | [] => exact absurd h (by decide)
  | [c] =>
    by_cases hc : c = '/'
    · subst hc; decide
    · have h1 : goStartsWith "/" ⟨[c]⟩ = false := by
        simp [goStartsWith, List.isPrefixOf, hc]
      have h2 : ((⟨[c]⟩ : String) == "/") = false := by
        refine beq_eq_false_iff_ne.mpr fun he => hc ?_
        have := congrArg String.data he
        simpa using this
      rw [h1, h2]
  | c1 :: c2 :: t =>
    have h1 : goStartsWith "/" ⟨c1 :: c2 :: t⟩ = false := by
      simp [goStartsWith, List.isPrefixOf]
    have h2 : ((⟨c1 :: c2 :: t⟩ : String) == "/") = false := by
      refine beq_eq_false_iff_ne.mpr fun he => ?_
      have := congrArg String.data he
      simp at this
    rw [h1, h2]

theorem goDir_single (p s0 : String) (hsegs : goSplit p '/' = [s0]) :
    goDir p = "." := by
  simp [goDir, hsegs]

theorem validSeg_facts {s : String} (h : validSeg s = true) :
    s ≠ "" ∧ s ≠ "." := by
  simp only [validSeg, Bool.and_eq_true, Bool.not_eq_true'] at h
  exact ⟨beq_eq_false_iff_ne.mp h.1.1, beq_eq_false_iff_ne.mp h.1.2⟩

theorem goDir_multi (p : String) (hp : validRelPath p = true) (s0 s1 : String)
    (rest : List String) (hsegs : goSplit p '/' = s0 :: s1 :: rest) :
    (∃ c cs, (goDir p).data = c :: cs ∧ c ≠ '/') ∧ goDir p ≠ "." := by
  have hmem : s0 ∈ goSplit p '/' := by rw [hsegs]; exact List.mem_cons_self _ _
  have hnosep : '/' ∉ s0.data := mem_goSplit_no_sep p '/' s0 hmem
  have hseg : validSeg s0 = true := by
    have := (List.all_eq_true.mp hp) s0 hmem
    simpa using this
  obtain ⟨hne, hdot⟩ := validSeg_facts hseg
  have hdata : s0.data ≠ [] := fun hd => hne (strDataEq (by simpa using hd))
  obtain ⟨c, cs, hcs⟩ : ∃ c cs, s0.data = c :: cs := by
    cases hd : s0.data with
    | nil => exact absurd hd hdata
    | cons c cs => exact ⟨c, cs, rfl⟩
  have hcslash : c ≠ '/' := fun hc => hnosep (by rw [hcs, hc]; exact List.mem_cons_self _ _)
  have hdl : (goSplit p '/').dropLast = s0 :: (s1 :: rest).dropLast := by
    rw [hsegs]; rfl
  have hgd : goDir p = joinSlash (s0 :: (s1 :: rest).dropLast) := by
    rw [goDir, hdl]
  cases hds : (s1 :: rest).dropLast with
  | nil =>
    rw [hds] at hgd
    constructor
    · exact ⟨c, cs, by rw [hgd]; exact hcs, hcslash⟩
    · rw [hgd]; exact hdot
  | cons d ds =>
    rw [hds] at hgd
    have hjoin : goDir p = s0 ++ "/" ++ joinSlash (d :: ds) := by
      rw [hgd, joinSlash_cons_ne s0 (d :: ds) (by simp)]
    have hjdata : (goDir p).data = c :: (cs ++ '/' :: (joinSlash (d :: ds)).data) := by
      rw [hjoin, strApp_data, strApp_data, hcs]
      simp
    constructor
    · exact ⟨c, _, hjdata, hcslash⟩
    · intro hcon
      have := congrArg String.data hcon
      rw [hjdata] at this
      simp only [show (".").data = ['.'] from rfl] at this
      have h2 : cs ++ '/' :: (joinSlash (d :: ds)).data = [] := (List.cons.injEq _ _ _ _ ▸ this).2
      simp at h2

theorem strNeEmpty {s : String} {c : Char} {cs : List Char} (hd : s.data = c :: cs) :
    (s == "") = false :=
  beq_eq_false_iff_ne.mpr fun he => by
    have := congrArg String.data he
    rw [hd] at this
    simp at this

theorem goStartsWith_slash_left_false {s : String} {c : Char} {cs : List Char}
    (hd : s.data = c :: cs) (hc : c ≠ '/') : goStartsWith s "/" = false := by
  simp only [goStartsWith, hd, show ("/").data = ['/'] from rfl, List.isPrefixOf]
  simp [Ne.symm hc]

/-- C5: a trimmed pattern ending in `"/"` matches a walk-shaped relative path
exactly when `dirOf(path) ++ "/"` has the pattern as a prefix, and the
pattern `"/"` matches exactly the files directly at the root (empty
`dirOf`). `userPatternHit` is the shared pattern test of both the
include-pattern loop and the exclude-pattern loop of
`shouldIncludeFileByFilters`. -/
theorem dirPattern_matches_iff_under_directory
    (glob : GlobMatcher) (p pat : String)
    (hp : validRelPath p = true) (ht : goTrim pat = pat) (hs : goHasSuffix pat "/" = true) :
    userPatternHit glob p (goBase p) (dirSlashOf p) pat
        = goStartsWith (specDirOf p ++ "/") pat
    ∧ userPatternHit glob p (goBase p) (dirSlashOf p) "/"
        = (specDirOf p == "") := by
  have hpne : (pat == "") = false := goHasSuffix_ne_empty hs
  rcases hsegs : goSplit p '/' with _ | ⟨s0, t⟩
  · exact absurd hsegs (goSplit_ne_nil p '/')
  · cases t with
    | nil =>
      have hdir : goDir p = "." := goDir_single p s0 hsegs
      have hd1 : dirSlashOf p = "" := by simp [dirSlashOf, hdir]
      have hd2 : specDirOf p = "" := by simp [specDirOf, hdir]
      constructor
      · rw [hd1, hd2]
        unfold userPatternHit
        rw [ht, if_neg (by simp [hpne]), if_pos (by simp [hs])]
        rw [goStartsWith_empty_right hpne]
        rw [show (("" : String) ++ "/") = "/" from rfl]
        rw [goStartsWith_slash hpne]
        simp
      · rw [hd1, hd2]
        unfold userPatternHit
        rw [show goTrim "/" = "/" from by decide, if_neg (by decide), if_pos (by decide)]
        decide
    | cons s1 rest =>
      obtain ⟨⟨c, cs, hdata, hc⟩, hdot⟩ := goDir_multi p hp s0 s1 rest hsegs
      have hdotb : (goDir p == ".") = false := beq_eq_false_iff_ne.mpr hdot
      have hd1 : dirSlashOf p = goDir p ++ "/" := by simp [dirSlashOf, hdotb]
      have hd2 : specDirOf p = goDir p := by simp [specDirOf, hdotb]
      have happ : (goDir p ++ "/").data = c :: (cs ++ ['/']) := by
        rw [strApp_data, hdata]; rfl
      have hdne : ((goDir p ++ "/") == "") = false := strNeEmpty happ
      constructor
      · rw [hd1, hd2]
        unfold userPatternHit
        rw [ht, if_neg (by simp [hpne]), if_pos (by simp [hs])]
        rw [hdne]
        simp
      · rw [hd1, hd2]
        unfold userPatternHit
        rw [show goTrim "/" = "/" from by decide, if_neg (by decide), if_pos (by decide)]
        rw [goStartsWith_slash_left_false happ hc, hdne, strNeEmpty hdata]
        simp

/-! Walk lemmas: the callback never produces a real error, appended files
passed the gitignore check, and appended files are text-classified files of
the tree. -/

mutual
theorem walkEntry_ctl (ign : IgnoreMatcher) (pre : String) (t : FSTree) :
    (walkEntry ign pre t).2 = Ctl.nil := by
  cases t with
  | file name cls =>
    simp only [walkEntry]
    (repeat' split) <;> rfl
  | dir name readFail children =>
    cases readFail with
    | some e =>
      cases e <;> (simp only [walkEntry, cbOnErr]; (repeat' split) <;> rfl)
    | none =>
      simp only [walkEntry]
      (repeat' split) <;> first | rfl | exact walkForest_ctl ign _ children

theorem walkForest_ctl (ign : IgnoreMatcher) (pre : String) (f : FSForest) :
    (walkForest ign pre f).2 = Ctl.nil := by
  cases f with
  | leaf => rfl
  | cons t ts =>
    have h : walkEntry ign pre t = ((walkEntry ign pre t).1, Ctl.nil) := by
      rw [← walkEntry_ctl ign pre t]
    show (walkForest ign pre (.cons t ts)).2 = Ctl.nil
    unfold walkForest
    rw [h]
    exact walkForest_ctl ign pre ts
end

mutual
theorem walkEntry_not_ignored (ign : IgnoreMatcher) (pre : String) (t : FSTree) :
    ∀ p ∈ (walkEntry ign pre t).1, ignoresF ign p = false := by
  cases t with
  | file name cls =>
    intro p hp
    unfold walkEntry at hp
    by_cases h1 : (childRel pre name == ".gitignore") = true
    · rw [if_pos h1] at hp; simp at hp
    · rw [if_neg h1] at hp
      by_cases h2 : ignoresF ign (childRel pre name) = true
      · rw [if_pos h2] at hp; simp at hp
      · rw [if_neg h2] at hp
        simp only [Bool.not_eq_true] at h2
        cases cls with
        | openFail => simp at hp
        | readFail => simp at hp
        | content mime =>
          dsimp only at hp
          by_cases h3 : goStartsWith mime "text/" = true
          · rw [if_pos h3] at hp
            simp only [List.mem_singleton] at hp
            subst hp
            exact h2
          · rw [if_neg h3] at hp; simp at hp
  | dir name readFail children =>
    intro p hp
    unfold walkEntry at hp
    by_cases h1 : ignoresF ign (childRel pre name ++ "/") = true
    · rw [if_pos h1] at hp; simp at hp
    · rw [if_neg h1] at hp
      by_cases h2 : defaultExcludeDirSkip (childRel pre name ++ "/") = true
      · rw [if_pos h2] at hp; simp at hp
      · rw [if_neg h2] at hp
        by_cases h3 : (name == ".git") = true
        · rw [if_pos h3] at hp; simp at hp
        · rw [if_neg h3] at hp
          cases readFail with
          | some e => cases e <;> simp [cbOnErr] at hp
          | none => exact walkForest_not_ignored ign _ children p hp

theorem walkForest_not_ignored (ign : IgnoreMatcher) (pre : String) (f : FSForest) :
    ∀ p ∈ (walkForest ign pre f).1, ignoresF ign p = false := by
  cases f with
  | leaf => intro p hp; simp [walkForest] at hp
  | cons t ts =>
    intro p hp
    have he := walkEntry_not_ignored ign pre t
    unfold walkForest at hp
    rcases hw : walkEntry ign pre t with ⟨fs1, ctl⟩
    rw [hw] at hp he
    cases ctl with
    | nil =>
      simp only at hp
      rcases List.mem_append.mp hp with h | h
      · exact he p h
      · exact walkForest_not_ignored ign pre ts p h
    | skipDir => exact he p hp
    | fail e => exact he p hp
end

mutual
theorem walkEntry_text (ign : IgnoreMatcher) (pre : String) (t : FSTree) :
    ∀ p ∈ (walkEntry ign pre t).1,
      ∃ mime, (p, FileClass.content mime) ∈ filesIn pre t
        ∧ goStartsWith mime "text/" = true := by
  cases t with
  | file name cls =>
    intro p hp
    unfold walkEntry at hp
    by_cases h1 : (childRel pre name == ".gitignore") = true
    · rw [if_pos h1] at hp; simp at hp
    · rw [if_neg h1] at hp
      by_cases h2 : ignoresF ign (childRel pre name) = true
      · rw [if_pos h2] at hp; simp at hp
      · rw [if_neg h2] at hp
        cases cls with
        | openFail => simp at hp
        | readFail => simp at hp
        | content mime =>
          dsimp only at hp
          by_cases h3 : goStartsWith mime "text/" = true
          · rw [if_pos h3] at hp
            simp only [List.mem_singleton] at hp
            subst hp
            exact ⟨mime, by simp [filesIn], h3⟩
          · rw [if_neg h3] at hp; simp at hp
  | dir name readFail children =>
    intro p hp
    unfold walkEntry at hp
    by_cases h1 : ignoresF ign (childRel pre name ++ "/") = true
    · rw [if_pos h1] at hp; simp at hp
    · rw [if_neg h1] at hp
      by_cases h2 : defaultExcludeDirSkip (childRel pre name ++ "/") = true
      · rw [if_pos h2] at hp; simp at hp
      · rw [if_neg h2] at hp
        by_cases h3 : (name == ".git") = true
        · rw [if_pos h3] at hp; simp at hp
        · rw [if_neg h3] at hp
          cases readFail with
          | some e => cases e <;> simp [cbOnErr] at hp
          | none =>
            obtain ⟨mime, hm, ht⟩ := walkForest_text ign _ children p hp
            exact ⟨mime, by simpa [filesIn] using hm, ht⟩

theorem walkForest_text (ign : IgnoreMatcher) (pre : String) (f : FSForest) :
    ∀ p ∈ (walkForest ign pre f).1,
      ∃ mime, (p, FileClass.content mime) ∈ forestFilesIn pre f
        ∧ goStartsWith mime "text/" = true := by
  cases f with
  | leaf => intro p hp; simp [walkForest] at hp
  | cons t ts =>
    intro p hp
    have he := walkEntry_text ign pre t
    unfold walkForest at hp
    rcases hw : walkEntry ign pre t with ⟨fs1, ctl⟩
    rw [hw] at hp he
    have hsub : ∀ q cls, (q, cls) ∈ filesIn pre t → (q, cls) ∈ forestFilesIn pre (.cons t ts) := by
      intro q cls hq
      simp only [forestFilesIn]
      exact List.mem_append_left _ hq
    cases ctl with
    | nil =>
      simp only at hp
      rcases List.mem_append.mp hp with h | h
      · obtain ⟨mime, hm, htx⟩ := he p h
        exact ⟨mime, hsub _ _ hm, htx⟩
      · obtain ⟨mime, hm, htx⟩ := walkForest_text ign pre ts p h
        exact ⟨mime, by simp only [forestFilesIn]; exact List.mem_append_right _ hm, htx⟩
    | skipDir =>
      obtain ⟨mime, hm, htx⟩ := he p hp
      exact ⟨mime, hsub _ _ hm, htx⟩
    | fail e =>
      obtain ⟨mime, hm, htx⟩ := he p hp
      exact ⟨mime, hsub _ _ hm, htx⟩
end

theorem walkDirRoot_ctl (ign : IgnoreMatcher) (fs : RootFS) :
    (walkDirRoot ign fs).2 = Ctl.nil := by
  rcases fs with ⟨statFail, tree⟩
  cases statFail with
  | some e => cases e <;> rfl
  | none =>
    cases tree with
    | file n c => rfl
    | dir n rf ch =>
      cases rf with
      | some e => cases e <;> rfl
      | none => exact walkForest_ctl ign "" ch

theorem walkDirRoot_not_ignored (ign : IgnoreMatcher) (fs : RootFS) :
    ∀ p ∈ (walkDirRoot ign fs).1, ignoresF ign p = false := by
  rcases fs with ⟨statFail, tree⟩
  cases statFail with
  | some e => cases e <;> (intro p hp; simp [walkDirRoot, cbOnErr] at hp)
  | none =>
    cases tree with
    | file n c => intro p hp; simp [walkDirRoot, cbOnErr] at hp
    | dir n rf ch =>
      cases rf with
      | some e => cases e <;> (intro p hp; simp [walkDirRoot, cbOnErr] at hp)
      | none => exact walkForest_not_ignored ign "" ch

theorem walkDirRoot_text (ign : IgnoreMatcher) (fs : RootFS) :
    ∀ p ∈ (walkDirRoot ign fs).1,
      ∃ mime, (p, FileClass.content mime) ∈ rootFilesIn fs
        ∧ goStartsWith mime "text/" = true := by
  rcases fs with ⟨statFail, tree⟩
  cases statFail with
  | some e => cases e <;> (intro p hp; simp [walkDirRoot, cbOnErr] at hp)
  | none =>
    cases tree with
    | file n c => intro p hp; simp [walkDirRoot, cbOnErr] at hp
    | dir n rf ch =>
      cases rf with
      | some e => cases e <;> (intro p hp; simp [walkDirRoot, cbOnErr] at hp)
      | none => exact walkForest_text ign "" ch

theorem ListFiles_eq (glob : GlobMatcher) (ign : IgnoreMatcher) (fs : RootFS) (app : AppState) :
    ListFiles glob ign fs app
      = (none, applyFilters glob { app with allFiles := sortStrings (walkDirRoot ign fs).1 }) := by
  have h := walkDirRoot_ctl ign fs
  unfold ListFiles
  rcases hw : walkDirRoot ign fs with ⟨files, ctl⟩
  rw [hw] at h
  simp only at h
  subst h
  rfl

theorem applyFilters_fileList (glob : GlobMatcher) (app : AppState) :
    (applyFilters glob app).fileList
      = app.allFiles.filter fun file =>
          shouldIncludeFileByFilters glob file app.filterMode app.includes app.excludes := rfl

theorem applyFilters_allFiles (glob : GlobMatcher) (app : AppState) :
    (applyFilters glob app).allFiles = app.allFiles := rfl

theorem applyFilters_selectedFiles (glob : GlobMatcher) (app : AppState) (file : String) :
    (applyFilters glob app).selectedFiles file
      = ((applyFilters glob app).fileList.contains file && app.selectedFiles file) := rfl

theorem mem_sortStrings {p : String} {l : List String} : p ∈ sortStrings l ↔ p ∈ l :=
  (List.perm_insertionSort _ l).mem_iff

/-! Engine lemmas: the default excludes veto both modes. -/

theorem should_false_of_defaultExcluded (glob : GlobMatcher) (p : String)
    (m : FilterMode) (inc exc : String)
    (h : isDefaultExcluded glob p (goBase p) (dirSlashOf p) = true) :
    shouldIncludeFileByFilters glob p m inc exc = false := by
  cases m with
  | IncludeMode =>
    simp only [shouldIncludeFileByFilters, h]
    split <;> simp
  | ExcludeMode => simp [shouldIncludeFileByFilters, h]

theorem defaultExcluded_of_underBuiltin (glob : GlobMatcher) (p : String)
    (h : underBuiltinExcludeDir p = true) :
    isDefaultExcluded glob p (goBase p) (dirSlashOf p) = true := by
  unfold underBuiltinExcludeDir at h
  obtain ⟨pat0, hmem, hcond⟩ := List.any_eq_true.mp h
  rw [Bool.and_eq_true] at hcond
  obtain ⟨h1, h2⟩ := hcond
  refine List.any_eq_true.mpr ⟨pat0, hmem, ?_⟩
  rw [if_neg (by simp [goHasSuffix_ne_empty h1]), if_pos (by simp [h1])]
  exact h2

theorem fatal_state_allFiles (glob : GlobMatcher) (ign : IgnoreMatcher)
    (fs : RootFS) (app : AppState) :
    ((ListFiles glob ign fs app).2).allFiles = sortStrings (walkDirRoot ign fs).1 := by
  rw [ListFiles_eq]
  rfl

/-- C1: a path matched by the gitignore rules, or lying under a built-in
(DefaultExcludes) directory pattern, is absent from the visible file list for
every filter mode and every includes/excludes string: gitignored paths never
survive the walk into the candidate list, and `shouldIncludeFileByFilters`
rejects default-excluded paths in both modes, so an include-mode match can
never make such a path visible. -/
theorem ignored_or_builtin_excluded_never_visible
    (glob : GlobMatcher) (ign : IgnoreMatcher) (fs : RootFS) (app : AppState)
    (m : FilterMode) (inc exc : String) (p : String)
    (h : ignoresF ign p = true ∨ underBuiltinExcludeDir p = true) :
    p ∉ (applyFilters glob
          { (ListFiles glob ign fs app).2 with
              filterMode := m, includes := inc, excludes := exc }).fileList := by
  intro hmem
  rw [applyFilters_fileList, List.mem_filter] at hmem
  obtain ⟨hmem1, hshould⟩ := hmem
  rcases h with h | h
  · have hall : ({ (ListFiles glob ign fs app).2 with
        filterMode := m, includes := inc, excludes := exc } : AppState).allFiles
        = sortStrings (walkDirRoot ign fs).1 := by
      rw [show ({ (ListFiles glob ign fs app).2 with
          filterMode := m, includes := inc, excludes := exc } : AppState).allFiles
          = ((ListFiles glob ign fs app).2).allFiles from rfl]
      exact fatal_state_allFiles glob ign fs app
    rw [hall] at hmem1
    have hcand : p ∈ (walkDirRoot ign fs).1 := mem_sortStrings.mp hmem1
    have hni := walkDirRoot_not_ignored ign fs p hcand
    rw [h] at hni
    cases hni
  · have hfalse := should_false_of_defaultExcluded glob p m inc exc
      (defaultExcluded_of_underBuiltin glob p h)
    rw [show ({ (ListFiles glob ign fs app).2 with
        filterMode := m, includes := inc, excludes := exc } : AppState).filterMode = m from rfl,
      show ({ (ListFiles glob ign fs app).2 with
        filterMode := m, includes := inc, excludes := exc } : AppState).includes = inc from rfl,
      show ({ (ListFiles glob ign fs app).2 with
        filterMode := m, includes := inc, excludes := exc } : AppState).excludes = exc from rfl,
      hfalse] at hshould
    cases hshould

def glob₀ : GlobMatcher := fun _ _ => some false

def app₀ : AppState := ⟨[], [], fun _ => false, .ExcludeMode, "", "", 0⟩

def ign₁ : IgnoreMatcher := some fun q => q == "x.txt"

def fs₁ : RootFS :=
  ⟨none, .dir "root" none (.cons (.file "x.txt" (.content "text/plain")) .leaf)⟩

theorem ignored_or_builtin_excluded_never_visible_witness :
    ignoresF ign₁ "x.txt" = true ∧
    "x.txt" ∉ (applyFilters glob₀
        { (ListFiles glob₀ ign₁ fs₁ app₀).2 with
            filterMode := FilterMode.ExcludeMode, includes := "", excludes := "" }).fileList :=
  ⟨by decide,
    ignored_or_builtin_excluded_never_visible glob₀ ign₁ fs₁ app₀
      FilterMode.ExcludeMode "" "" "x.txt" (Or.inl (by decide))⟩

/-- C2: for a path not vetoed by the built-in excludes (gitignored paths are
already absent from the candidates), `ExcludeMode` shows it exactly when no
user exclude pattern hits, and `IncludeMode` shows it exactly when the
includes string is empty or some include pattern hits. -/
theorem mode_logic_after_vetoes (glob : GlobMatcher) (p inc exc : String)
    (h : isDefaultExcluded glob p (goBase p) (dirSlashOf p) = false) :
    shouldIncludeFileByFilters glob p .ExcludeMode inc exc
        = !userPatternSetHits glob exc p (goBase p) (dirSlashOf p)
    ∧ shouldIncludeFileByFilters glob p .IncludeMode inc exc
        = ((inc == "") || userPatternSetHits glob inc p (goBase p) (dirSlashOf p)) := by
  constructor
  · simp [shouldIncludeFileByFilters, h]
  · simp only [shouldIncludeFileByFilters, h]
    by_cases hinc : (inc == "") = true
    · rw [if_pos hinc, hinc]; simp
    · rw [if_neg hinc]
      simp only [Bool.not_eq_true] at hinc
      rw [hinc]
      simp

theorem mode_logic_after_vetoes_witness :
    isDefaultExcluded glob₀ "a/b.go" (goBase "a/b.go") (dirSlashOf "a/b.go") = false ∧
    shouldIncludeFileByFilters glob₀ "a/b.go" .ExcludeMode "x" "y"
        = !userPatternSetHits glob₀ "y" "a/b.go" (goBase "a/b.go") (dirSlashOf "a/b.go") ∧
    shouldIncludeFileByFilters glob₀ "a/b.go" .IncludeMode "x" "y"
        = ((("x" : String) == "") || userPatternSetHits glob₀ "x" "a/b.go" (goBase "a/b.go") (dirSlashOf "a/b.go")) :=
  ⟨by decide,
    (mode_logic_after_vetoes glob₀ "a/b.go" "x" "y" (by decide)).1,
    (mode_logic_after_vetoes glob₀ "a/b.go" "x" "y" (by decide)).2⟩

/-! C3: the walk error policy. -/

theorem walkEntry_errDir (ign : IgnoreMatcher) (pre n : String) (e : IOErr) (cs : FSForest) :
    walkEntry ign pre (.dir n (some e) cs) = ([], Ctl.nil) := by
  cases e <;> (simp only [walkEntry, cbOnErr]; (repeat' split) <;> rfl)

theorem walkEntry_errFileOpen (ign : IgnoreMatcher) (pre n : String) :
    walkEntry ign pre (.file n .openFail) = ([], Ctl.nil) := by
  simp only [walkEntry]
  (repeat' split) <;> rfl

theorem walkEntry_errFileRead (ign : IgnoreMatcher) (pre n : String) :
    walkEntry ign pre (.file n .readFail) = ([], Ctl.nil) := by
  simp only [walkEntry]
  (repeat' split) <;> rfl

/-- C3 counterexample: when the root directory itself cannot be accessed
(`os.Lstat` fails, with a permission error or any other error), the claim
says this failure — and only this one — is propagated as a fatal error to the
caller of `ListFiles`; the code instead swallows it in the callback's error
branch (permission ⇒ `SkipDir`, otherwise `nil`), `WalkDir` returns `nil`,
and `ListFiles` reports success with an empty candidate list. -/
theorem root_failure_not_propagated_cex :
    (ListFiles glob₀ none ⟨some IOErr.permission, FSTree.dir "root" none .leaf⟩ app₀).1 = none
    ∧ (ListFiles glob₀ none ⟨some IOErr.other, FSTree.dir "root" none .leaf⟩ app₀).1 = none
    ∧ (ListFiles glob₀ none ⟨some IOErr.other, FSTree.dir "root" none .leaf⟩ app₀).2.allFiles
        = [] := by
  refine ⟨rfl, rfl, rfl⟩

/-- C3 as amended: a permission (or any) error on a subdirectory prunes
exactly that subtree and the walk continues with its siblings; an open or
read failure on an individual file skips exactly that file; but no walk
error at all — including failure to access the root directory — is ever
propagated: `ListFiles` always returns success. -/
theorem walk_error_policy_amended (glob : GlobMatcher) (ign : IgnoreMatcher)
    (fs : RootFS) (app : AppState) (pre n : String) (e : IOErr)
    (cs ts : FSForest) :
    (ListFiles glob ign fs app).1 = none
    ∧ walkForest ign pre (.cons (.dir n (some e) cs) ts) = walkForest ign pre ts
    ∧ walkForest ign pre (.cons (.file n .openFail) ts) = walkForest ign pre ts
    ∧ walkForest ign pre (.cons (.file n .readFail) ts) = walkForest ign pre ts := by
  refine ⟨by rw [ListFiles_eq], ?_, ?_, ?_⟩
  · show (match walkEntry ign pre (.dir n (some e) cs) with
      | (fs, .nil) =>
        let r := walkForest ign pre ts
        (fs ++ r.1, r.2)
      | (fs, .skipDir) => (fs, .nil)
      | (fs, .fail e) => (fs, .fail e)) = walkForest ign pre ts
    rw [walkEntry_errDir]
    simp
  · show (match walkEntry ign pre (.file n .openFail) with
      | (fs, .nil) =>
        let r := walkForest ign pre ts
        (fs ++ r.1, r.2)
      | (fs, .skipDir) => (fs, .nil)
      | (fs, .fail e) => (fs, .fail e)) = walkForest ign pre ts
    rw [walkEntry_errFileOpen]
    simp
  · show (match walkEntry ign pre (.file n .readFail) with
      | (fs, .nil) =>
        let r := walkForest ign pre ts
        (fs ++ r.1, r.2)
      | (fs, .skipDir) => (fs, .nil)
      | (fs, .fail e) => (fs, .fail e)) = walkForest ign pre ts
    rw [walkEntry_errFileRead]
    simp

/-! C4: only successfully opened, text-sniffed files become candidates. -/

/-- C4: every path in the candidate list (`allFiles`) comes from a file that
was opened and read successfully and whose first at most 512 bytes sniffed to
a `text/…` MIME type; conversely (for trees whose file paths are distinct, as
on a real filesystem) a file that failed to open or read, or sniffed to a
non-`text/…` type, never appears in the candidate list. -/
theorem candidates_opened_and_text_sniffed
    (glob : GlobMatcher) (ign : IgnoreMatcher) (fs : RootFS) (app : AppState) (p : String) :
    (p ∈ (ListFiles glob ign fs app).2.allFiles →
        ∃ mime, (p, FileClass.content mime) ∈ rootFilesIn fs
          ∧ goStartsWith mime "text/" = true)
    ∧ (∀ cls : FileClass, ((rootFilesIn fs).map Prod.fst).Nodup →
        (p, cls) ∈ rootFilesIn fs →
        (∀ mime, cls = FileClass.content mime → goStartsWith mime "text/" = false) →
        p ∉ (ListFiles glob ign fs app).2.allFiles) := by
  constructor
  · intro hp
    rw [fatal_state_allFiles] at hp
    exact walkDirRoot_text ign fs p (mem_sortStrings.mp hp)
  · intro cls hnod hmem hbad hp
    rw [fatal_state_allFiles] at hp
    obtain ⟨mime, hm, htx⟩ := walkDirRoot_text ign fs p (mem_sortStrings.mp hp)
    have heq : (p, cls) = (p, FileClass.content mime) :=
      List.inj_on_of_nodup_map hnod hmem hm rfl
    have hcls : cls = FileClass.content mime := (Prod.mk.injEq _ _ _ _ ▸ heq).2
    have := hbad mime hcls
    rw [htx] at this
    cases this

def fs₂ : RootFS :=
  ⟨none, .dir "root" none (.cons (.file "a.txt" (.content "text/plain"))
    (.cons (.file "big.bin" (.content "application/octet-stream"))
      (.cons (.file "locked" .openFail) .leaf)))⟩

theorem candidates_opened_and_text_sniffed_witness :
    ((rootFilesIn fs₂).map Prod.fst).Nodup
    ∧ ("big.bin", FileClass.content "application/octet-stream") ∈ rootFilesIn fs₂
    ∧ "big.bin" ∉ (ListFiles glob₀ none fs₂ app₀).2.allFiles
    ∧ ("locked", FileClass.openFail) ∈ rootFilesIn fs₂
    ∧ "locked" ∉ (ListFiles glob₀ none fs₂ app₀).2.allFiles :=
  ⟨by decide, by decide,
    (candidates_opened_and_text_sniffed glob₀ none fs₂ app₀ "big.bin").2
      (FileClass.content "application/octet-stream") (by decide) (by decide)
      (fun mime h => by injection h with h2; exact h2 ▸ (by decide)),
    by decide,
    (candidates_opened_and_text_sniffed glob₀ none fs₂ app₀ "locked").2
      FileClass.openFail (by decide) (by decide)
      (fun mime h => by cases h)⟩

/-! C7: sortedness and subsequence. -/

/-- C7: `ListFiles` stores `allFiles` sorted in ascending lexicographic
order, `applyFilters` produces `fileList` as an order-preserving subsequence
of `allFiles`, and consequently `fileList` is sorted too. -/
theorem fileLists_sorted_and_subsequence
    (glob : GlobMatcher) (ign : IgnoreMatcher) (fs : RootFS) (app : AppState) :
    ((ListFiles glob ign fs app).2.allFiles).Sorted (fun a b => strLe a b = true)
    ∧ ((ListFiles glob ign fs app).2.fileList).Sublist
        ((ListFiles glob ign fs app).2.allFiles)
    ∧ ((ListFiles glob ign fs app).2.fileList).Sorted (fun a b => strLe a b = true) := by
  have hst : (ListFiles glob ign fs app).2
      = applyFilters glob { app with allFiles := sortStrings (walkDirRoot ign fs).1 } := by
    rw [ListFiles_eq]
  rw [hst, applyFilters_fileList, applyFilters_allFiles]
  refine ⟨List.sorted_insertionSort _ _, List.filter_sublist _,
    List.Pairwise.sublist (List.filter_sublist _) (List.sorted_insertionSort _ _)⟩

/-! C6: glob patterns and pattern sets. -/

/-- C6: a pattern without trailing slash matches through the glob matcher
against the base name or the full relative path (logical OR), and the whole
pattern-set loop hits exactly when some trimmed nonempty pattern matches
(`List.any` short-circuits at the first hit, like the loop's `break`);
entries that are empty after trimming are skipped. -/
theorem globPattern_or_and_patternset_any
    (glob : GlobMatcher) (patterns relPath baseName dirPath : String) :
    (∀ pat, goTrim pat = pat → goHasSuffix pat "/" = false →
        userPatternHit glob relPath baseName dirPath pat
          = ((pat == "") = false
              && (matchOrFalse glob pat baseName || matchOrFalse glob pat relPath)))
    ∧ (userPatternSetHits glob patterns relPath baseName dirPath = true
        ↔ ∃ pat ∈ parsedPatterns patterns,
            specPatMatches glob relPath baseName dirPath pat = true) := by
  constructor
  · intro pat ht hnd
    unfold userPatternHit
    rw [ht]
    by_cases he : (pat == "") = true
    · rw [if_pos he]
      simp [he]
    · rw [if_neg he, if_neg (by simp [hnd])]
      simp only [Bool.not_eq_true] at he
      simp [he]
  · constructor
    · intro h
      obtain ⟨pat0, hmem, hhit⟩ := List.any_eq_true.mp h
      have hne : (goTrim pat0 == "") = false := by
        unfold userPatternHit at hhit
        by_cases he : (goTrim pat0 == "") = true
        · rw [if_pos he] at hhit; cases hhit
        · simpa using he
      refine ⟨goTrim pat0, ?_, ?_⟩
      · unfold parsedPatterns
        rw [List.mem_filter]
        exact ⟨List.mem_map.mpr ⟨pat0, hmem, rfl⟩, by simp [hne]⟩
      · unfold userPatternHit at hhit
        rw [if_neg (by simp [hne])] at hhit
        exact hhit
    · intro h
      obtain ⟨pat, hmem, hmatch⟩ := h
      unfold parsedPatterns at hmem
      rw [List.mem_filter] at hmem
      obtain ⟨hmem1, hne⟩ := hmem
      obtain ⟨pat0, hmem0, heq⟩ := List.mem_map.mp hmem1
      refine List.any_eq_true.mpr ⟨pat0, hmem0, ?_⟩
      unfold userPatternHit
      rw [heq, if_neg (by simp_all)]
      exact hmatch

theorem globPattern_or_and_patternset_any_witness :
    goTrim "*.go" = "*.go"
    ∧ goHasSuffix "*.go" "/" = false
    ∧ userPatternHit glob₀ "a/b.go" "b.go" "a/" "*.go"
        = ((("*.go" : String) == "") = false
            && (matchOrFalse glob₀ "*.go" "b.go" || matchOrFalse glob₀ "*.go" "a/b.go")) :=
  ⟨by decide, by decide,
    (globPattern_or_and_patternset_any glob₀ "" "a/b.go" "b.go" "a/").1 "*.go"
      (by decide) (by decide)⟩

/-! C8: purity and determinism of the filter decision. -/

/-- C8: the per-path decision is a function of its arguments alone (two
evaluations with identical arguments are the same boolean), and recomputing
the filtered list from two states agreeing on the candidate list and filter
state yields identical ordered output, whatever their other fields. -/
theorem filter_decision_deterministic
    (glob : GlobMatcher) (p : String) (m : FilterMode) (inc exc : String)
    (s1 s2 : AppState) (h1 : s1.allFiles = s2.allFiles)
    (h2 : s1.filterMode = s2.filterMode) (h3 : s1.includes = s2.includes)
    (h4 : s1.excludes = s2.excludes) :
    shouldIncludeFileByFilters glob p m inc exc
        = shouldIncludeFileByFilters glob p m inc exc
    ∧ (applyFilters glob s1).fileList = (applyFilters glob s2).fileList :=
  ⟨rfl, by rw [applyFilters_fileList, applyFilters_fileList, h1, h2, h3, h4]⟩

def st₁ : AppState := ⟨["a.go", "b.txt"], [], fun _ => false, .ExcludeMode, "", "*.x", 0⟩

def st₂ : AppState := ⟨["a.go", "b.txt"], ["stale"], fun _ => true, .ExcludeMode, "", "*.x", 9⟩

theorem filter_decision_deterministic_witness :
    st₁.allFiles = st₂.allFiles
    ∧ (applyFilters glob₀ st₁).fileList = (applyFilters glob₀ st₂).fileList :=
  ⟨by decide,
    (filter_decision_deterministic glob₀ "a.go" .ExcludeMode "" "" st₁ st₂
      (by decide) (by decide) (by decide) (by decide)).2⟩

/-! C9: glob syntax errors are discarded. -/

theorem userPatternSetHits_false_of_bad (glob : GlobMatcher) (pats p : String)
    (h : allPatternsBad glob pats p) :
    userPatternSetHits glob pats p (goBase p) (dirSlashOf p) = false := by
  unfold userPatternSetHits
  rw [List.any_eq_false]
  intro pat0 hmem
  unfold userPatternHit
  by_cases he : (goTrim pat0 == "") = true
  · rw [if_pos he]; simp
  · obtain ⟨hnd, hb, hp'⟩ := h pat0 hmem (by simpa using he)
    rw [if_neg he, if_neg (by simp [hnd])]
    simp [matchOrFalse, hb, hp']

theorem userPatternSetHits_empty (glob : GlobMatcher) (p b d : String) :
    userPatternSetHits glob "" p b d = false := by
  have hsplit : goSplit "" ',' = [""] := rfl
  unfold userPatternSetHits
  rw [hsplit]
  simp [userPatternHit, show goTrim "" = "" from rfl]

/-- C9: a non-directory pattern on which the glob matcher reports a syntax
error (for instance an unterminated character class) is treated, with the
error discarded, as matching no path: such a pattern never hits; an excludes
string made only of such patterns removes nothing (the decision equals the
empty-excludes decision in both modes); and in `IncludeMode` an includes
string made only of such patterns yields an empty visible list. -/
theorem bad_glob_pattern_matches_nothing
    (glob : GlobMatcher) (p : String) (m : FilterMode) (inc exc : String) (s : AppState) :
    (∀ pat, goTrim pat = pat → goHasSuffix pat "/" = false →
        glob pat (goBase p) = none → glob pat p = none →
        userPatternHit glob p (goBase p) (dirSlashOf p) pat = false)
    ∧ (allPatternsBad glob exc p →
        shouldIncludeFileByFilters glob p m inc exc
          = shouldIncludeFileByFilters glob p m inc "")
    ∧ (s.filterMode = .IncludeMode → (s.includes == "") = false →
        (∀ q ∈ s.allFiles, allPatternsBad glob s.includes q) →
        (applyFilters glob s).fileList = []) := by
  refine ⟨?_, ?_, ?_⟩
  · intro pat ht hnd hb hp'
    unfold userPatternHit
    rw [ht]
    by_cases he : (pat == "") = true
    · rw [if_pos he]
    · rw [if_neg he, if_neg (by simp [hnd])]
      simp [matchOrFalse, hb, hp']
  · intro hbadex
    cases m with
    | IncludeMode => rfl
    | ExcludeMode =>
      simp only [shouldIncludeFileByFilters]
      rw [userPatternSetHits_false_of_bad glob exc p hbadex,
        userPatternSetHits_empty glob p (goBase p) (dirSlashOf p)]
  · intro hmode hinc hbad
    rw [applyFilters_fileList]
    rw [List.filter_eq_nil_iff]
    intro q hq
    rw [hmode]
    simp only [shouldIncludeFileByFilters]
    rw [if_neg (by simp [hinc])]
    rw [userPatternSetHits_false_of_bad glob s.includes q (hbad q hq)]
    simp

def globBad : GlobMatcher := fun pat _ => if pat == "[" then none else some false

instance (glob : GlobMatcher) (patterns relPath : String) :
    Decidable (allPatternsBad glob patterns relPath) := by
  unfold allPatternsBad
  infer_instance

def stBadInc : AppState := ⟨["a/b.go"], [], fun _ => false, .IncludeMode, "[", "", 0⟩

theorem bad_glob_pattern_matches_nothing_witness :
    stBadInc.filterMode = .IncludeMode
    ∧ (stBadInc.includes == "") = false
    ∧ (∀ q ∈ stBadInc.allFiles, allPatternsBad globBad stBadInc.includes q)
    ∧ (applyFilters globBad stBadInc).fileList = [] :=
  ⟨rfl, by decide, by decide,
    (bad_glob_pattern_matches_nothing globBad "a/b.go" .IncludeMode "" "[" stBadInc).2.2
      rfl (by decide) (by decide)⟩

/-! C10: the selection never outlives visibility. -/

/-- C10: after `applyFilters`, a file is selected only if it is in the new
visible list; the selection bit is preserved only for files that were
selected before and pass the current filters, and a file rejected by the
filters is removed from the selection. -/
theorem selection_subset_of_visible (glob : GlobMatcher) (s : AppState) (f : String) :
    ((applyFilters glob s).selectedFiles f = true → f ∈ (applyFilters glob s).fileList)
    ∧ ((applyFilters glob s).selectedFiles f = true → s.selectedFiles f = true
        ∧ shouldIncludeFileByFilters glob f s.filterMode s.includes s.excludes = true)
    ∧ (shouldIncludeFileByFilters glob f s.filterMode s.includes s.excludes = false →
        (applyFilters glob s).selectedFiles f = false) := by
  have hsel := applyFilters_selectedFiles glob s f
  refine ⟨?_, ?_, ?_⟩
  · intro h
    rw [hsel, Bool.and_eq_true] at h
    exact List.mem_of_elem_eq_true h.1
  · intro h
    rw [hsel, Bool.and_eq_true] at h
    have hm := List.mem_of_elem_eq_true h.1
    rw [applyFilters_fileList, List.mem_filter] at hm
    exact ⟨h.2, hm.2⟩
  · intro h
    rw [hsel]
    have hc : (applyFilters glob s).fileList.contains f = false := by
      by_contra hcne
      simp only [Bool.not_eq_false] at hcne
      have hm := List.mem_of_elem_eq_true hcne
      rw [applyFilters_fileList, List.mem_filter] at hm
      rw [h] at hm
      cases hm.2
    rw [hc]
    rfl

def st₃ : AppState :=
  ⟨["a.go", "node_modules/x.js"], [], fun f => f == "a.go" || f == "node_modules/x.js",
    .ExcludeMode, "", "", 0⟩

theorem selection_subset_of_visible_witness :
    (applyFilters glob₀ st₃).selectedFiles "a.go" = true
    ∧ "a.go" ∈ (applyFilters glob₀ st₃).fileList
    ∧ shouldIncludeFileByFilters glob₀ "node_modules/x.js" st₃.filterMode st₃.includes
        st₃.excludes = false
    ∧ (applyFilters glob₀ st₃).selectedFiles "node_modules/x.js" = false :=
  ⟨by decide,
    (selection_subset_of_visible glob₀ st₃ "a.go").1 (by decide),
    by decide,
    (selection_subset_of_visible glob₀ st₃ "node_modules/x.js").2.2 (by decide)⟩

theorem dirPattern_matches_iff_under_directory_witness :
    validRelPath "a/sub/e.go" = true
    ∧ goTrim "a/" = "a/"
    ∧ goHasSuffix "a/" "/" = true
    ∧ userPatternHit glob₀ "a/sub/e.go" (goBase "a/sub/e.go") (dirSlashOf "a/sub/e.go") "a/"
        = goStartsWith (specDirOf "a/sub/e.go" ++ "/") "a/"
    ∧ userPatternHit glob₀ "a/sub/e.go" (goBase "a/sub/e.go") (dirSlashOf "a/sub/e.go") "/"
        = (specDirOf "a/sub/e.go" == "") :=
  ⟨by decide, by decide, by decide,
    (dirPattern_matches_iff_under_directory glob₀ "a/sub/e.go" "a/"
      (by decide) (by decide) (by decide)).1,
    (dirPattern_matches_iff_under_directory glob₀ "a/sub/e.go" "a/"
      (by decide) (by decide) (by decide)).2⟩

end Grepforllm

